import Mathlib

set_option maxRecDepth 8000

/-!
Shallow embedding of `src/agent.py` (GitHubMonitorAgent): log-error
extraction/deduplication, the two-tier fix advisor, and the monitoring loop.
Lines of log text are modelled as `List Char`; the external collaborators
(GitHub API, zip decompression, the language model) appear as explicit
parameters of the embedded functions.
-/

/-- Characters treated as whitespace by Python's `str.strip` and the regex
class `\s` (ASCII range; the log lines of interest are ASCII). -/
def pySpace (c : Char) : Bool :=
  c = ' ' || c = '\t' || c = '\n' || c = '\r' || c = '\x0B' || c = '\x0C'

/-- Convenience: the character list of a string literal. -/
def chars (s : String) : List Char := s.toList

/-- Python `str.lower` on ASCII text: lowercase every character. -/
def lowerChars (l : List Char) : List Char := l.map Char.toLower

/-- Substring containment: `pat` occurs contiguously in `s`, as Python's
`pat in s` and `re.search` of a literal alternation branch. -/
def containsSub (s pat : List Char) : Bool :=
  pat.isPrefixOf s ||
    match s with
    | [] => false
    | _ :: rest => containsSub rest pat

/-- Drop leading whitespace, as the greedy regex `\s*`. -/
def dropSpaces (l : List Char) : List Char := l.dropWhile pySpace

/-- Python `str.strip`: drop whitespace at both ends. -/
def trimChars (l : List Char) : List Char :=
  ((l.dropWhile pySpace).reverse.dropWhile pySpace).reverse

/-- The noise filter of `extract_all_errors` (agent.py line 76): case-insensitive
search for `Process completed with exit code` or `Job defined at:`. -/
def noiseHit (line : List Char) : Bool :=
  containsSub (lowerChars line) (chars "process completed with exit code") ||
  containsSub (lowerChars line) (chars "job defined at:")

/-- The error-signal test of `extract_all_errors` (agent.py line 84):
case-insensitive search for any of the six alternatives of the pattern
`(##\[error\]|ERROR|Exception|ZeroDivisionError|ModuleNotFoundError|No such file)`. -/
def errorHit (line : List Char) : Bool :=
  containsSub (lowerChars line) (chars "##[error]") ||
  containsSub (lowerChars line) (chars "error") ||
  containsSub (lowerChars line) (chars "exception") ||
  containsSub (lowerChars line) (chars "zerodivisionerror") ||
  containsSub (lowerChars line) (chars "modulenotfounderror") ||
  containsSub (lowerChars line) (chars "no such file")

/-- After the `Z` of the timestamp, the regex requires `\s*##\[error\]\s*`
(case-sensitive, as in the `re.sub` of agent.py line 90); on success return
the rest of the line with the greedy trailing `\s*` consumed. -/
def afterMarker (l : List Char) : Option (List Char) :=
  if (chars "##[error]").isPrefixOf (dropSpaces l) then
    some (dropSpaces ((dropSpaces l).drop 9))
  else none

/-- The lazy `.*?Z` of the normalization regex: scan for the first `Z` whose
suffix matches `\s*##\[error\]\s*` (backtracking to later `Z`s on failure);
`.` cannot cross a newline. -/
def findZ : List Char → Option (List Char)
  | [] => none
  | c :: rest =>
    if c = '\n' then none
    else if c = 'Z' then
      match afterMarker rest with
      | some r => some r
      | none => findZ rest
    else findZ rest

/-- The anchored head `^\d{4}-\d{2}-\d{2}T` of the normalization regex; on a
match, continue with the lazy scan for the `Z ##[error]` part. `none` means the
whole regex fails and `re.sub` leaves the line unchanged. -/
def matchTs : List Char → Option (List Char)
  | a :: b :: c :: d :: '-' :: e :: f :: '-' :: g :: h :: 'T' :: rest =>
    if a.isDigit && b.isDigit && c.isDigit && d.isDigit &&
       e.isDigit && f.isDigit && g.isDigit && h.isDigit
    then findZ rest
    else none
  | _ => none

/-- Normalization of a candidate error line (agent.py lines 89-94): remove a
leading timestamp-plus-`##[error]` match if present, then `strip()`. -/
def normalizeLine (line : List Char) : List Char :=
  match matchTs line with
  | some rest => trimChars rest
  | none => trimChars line

/-- Python `name.replace(".txt", "")` (agent.py line 103): remove every
occurrence of `.txt`, scanning left to right. -/
def removeTxt : List Char → List Char
  | '.' :: 't' :: 'x' :: 't' :: rest => removeTxt rest
  | c :: rest => c :: removeTxt rest
  | [] => []

/-- One deduplicated error entry, the dict appended at agent.py line 102. -/
structure ErrorOcc where
  job_step : List Char
  line_no : Nat
  error_line : List Char
deriving DecidableEq

/-- The case-insensitive dedup key of an occurrence (agent.py line 97). -/
def occKey (o : ErrorOcc) : List Char := lowerChars o.error_line

/-- One file inside the downloaded zip archive, already decoded: its entry
name and its `splitlines()` result (decoding with `errors="ignore"` is the
zip library's concern and cannot fail). -/
structure LogEntry where
  name : List Char
  lines : List (List Char)
deriving DecidableEq

/-- The body of the inner loop of `extract_all_errors` (agent.py lines 73-106)
for one `(lineNumber, line)` pair: state is the `seen_errors` set (as a list)
paired with the accumulated `errors` list. -/
def stepLine (name : List Char) (st : List (List Char) × List ErrorOcc)
    (p : Nat × List Char) : List (List Char) × List ErrorOcc :=
  if noiseHit p.2 then st
  else if errorHit p.2 then
    if lowerChars (normalizeLine p.2) ∈ st.1 then st
    else (lowerChars (normalizeLine p.2) :: st.1,
          st.2 ++ [⟨removeTxt name, p.1, normalizeLine p.2⟩])
  else st

/-- Processing of one archive entry: fold `stepLine` over its 1-based
enumerated lines (agent.py `enumerate(lines, start=1)`). -/
def processEntry (st : List (List Char) × List ErrorOcc) (e : LogEntry) :
    List (List Char) × List ErrorOcc :=
  (e.lines.enumFrom 1).foldl (stepLine e.name) st

/-- `extract_all_errors` on an already-parsed archive: entries in
`namelist()` order, a single `seen_errors` set across all entries. -/
def extractEntries (entries : List LogEntry) : List ErrorOcc :=
  (entries.foldl processEntry ([], [])).2

/-- The downloaded log bytes as seen by `zipfile.ZipFile`: either not a valid
zip (`BadZipFile` is raised) or a parsed list of entries. -/
inductive LogBytes where
  | corrupt : LogBytes
  | zip : List LogEntry → LogBytes

/-- `extract_all_errors` (agent.py lines 64-108). `zipfile.ZipFile` raises on a
corrupt archive and nothing in the function catches it, hence the `Except`. -/
def extract_all_errors : LogBytes → Except Unit (List ErrorOcc)
  | .corrupt => .error ()
  | .zip entries => .ok (extractEntries entries)

/-- The canned suggestion of `rule_based_fix` (agent.py lines 116-119). -/
def cannedModuleFix : List Char :=
  chars ("Cause: A required Python dependency is missing.\nFix: Add the missing package to requirements.txt and ensure dependencies are installed in the workflow.")

/-- `rule_based_fix` (agent.py lines 112-120): case-insensitive substring
lookup in the rule table, whose single entry triggers on
`modulenotfounderror`. -/
def rule_based_fix (error_line : List Char) : Option (List Char) :=
  if containsSub (lowerChars error_line) (chars "modulenotfounderror") then
    some cannedModuleFix
  else none

/-- The fixed-format prompt built by `ai_fix` (agent.py lines 129-136). -/
def buildPrompt (error_line : List Char) : List Char :=
  chars ("You are a senior DevOps engineer.\nExplain the root cause and fix for this CI failure.\n\n") ++
  error_line ++
  chars ("\n\nRespond exactly in this format:\nCause: <one sentence>\nFix: <one sentence>")

/-- The generic fallback suggestion of `ai_fix` (agent.py lines 145-148). -/
def genericFallback : List Char :=
  chars ("Cause: The workflow failed due to a configuration or dependency issue.\nFix: Review the error message and update the workflow or project files accordingly.")

/-- `ai_fix` (agent.py lines 124-150). The language-model collaborator is the
explicit parameter `gen`, mapping the prompt to the generated text (the
`generated_text` field of the pipeline response); its output is stripped and
checked for the `Cause:` and `Fix:` labels (case-sensitive `in`). -/
def ai_fix (gen : List Char → List Char) (error_line : List Char) : List Char :=
  match rule_based_fix error_line with
  | some fix => fix
  | none =>
    if containsSub (trimChars (gen (buildPrompt error_line))) (chars "Cause:") &&
       containsSub (trimChars (gen (buildPrompt error_line))) (chars "Fix:") then
      trimChars (gen (buildPrompt error_line))
    else genericFallback

/-- One entry of the `errors_info` list built in `monitor` (agent.py 183-191). -/
structure AnnotatedError where
  error_number : Nat
  job_step : List Char
  line_no : Nat
  error_line : List Char
  suggestion : List Char
deriving DecidableEq

/-- One entry of `all_results` (agent.py lines 193-197). -/
structure RunResult where
  workflow_name : String
  run_id : Nat
  errors : List AnnotatedError
deriving DecidableEq

/-- A workflow as returned by `list_workflows`: the fields `monitor` reads. -/
structure Workflow where
  id : Nat
  name : String
deriving DecidableEq

/-- The latest run of a workflow as returned by `latest_run`: the fields
`monitor` reads. -/
structure RunInfo where
  id : Nat
  conclusion : String
deriving DecidableEq

/-- The collaborators of one monitoring pass: the workflow listing, the
latest-run lookup, the log download (`none` models a falsy `download_logs`
result) and the language model. -/
structure MonitorEnv where
  workflows : List Workflow
  latest : Nat → Option RunInfo
  logs : Nat → Option LogBytes
  gen : List Char → List Char

/-- The mutable state of the `monitor` loop: `passed`, `failed`,
`all_results`. -/
structure MState where
  passed : Nat
  failed : Nat
  results : List RunResult
deriving DecidableEq

/-- The final artifact of one pass: the summary block plus the accumulated
per-run reports (agent.py lines 199-214). -/
structure MonitorSummary where
  total_workflows : Nat
  passed : Nat
  failed : Nat
  results : List RunResult
deriving DecidableEq

/-- The `errors_info` construction of `monitor` (agent.py lines 183-191):
1-based error numbers, a suggestion from `ai_fix` for each occurrence. -/
def annotate (gen : List Char → List Char) (errors : List ErrorOcc) :
    List AnnotatedError :=
  (errors.enumFrom 1).map
    (fun p => ⟨p.1, p.2.job_step, p.2.line_no, p.2.error_line, ai_fix gen p.2.error_line⟩)

/-- One iteration of the `for wf in workflows` loop of `monitor`
(agent.py lines 163-197). A corrupt log archive makes `extract_all_errors`
raise, which nothing in `monitor` catches: the `Except` propagates. -/
def monitorStep (env : MonitorEnv) (st : MState) (wf : Workflow) :
    Except Unit MState :=
  match env.latest wf.id with
  | none => .ok st
  | some run =>
    if run.conclusion = "success" then .ok ⟨st.passed + 1, st.failed, st.results⟩
    else if run.conclusion = "failure" then
      match env.logs run.id with
      | none => .ok ⟨st.passed, st.failed + 1, st.results⟩
      | some logBytes =>
        match extract_all_errors logBytes with
        | .error e => .error e
        | .ok errs =>
          .ok ⟨st.passed, st.failed + 1,
               st.results ++ [⟨wf.name, run.id, annotate env.gen errs⟩]⟩
    else .ok st

/-- `monitor` (agent.py lines 154-214): fold the per-workflow step over the
listing, then report `len(workflows)`, `passed`, `failed` and `all_results`. -/
def monitor (env : MonitorEnv) : Except Unit MonitorSummary :=
  match env.workflows.foldlM (monitorStep env) ⟨0, 0, []⟩ with
  | .error e => .error e
  | .ok st => .ok ⟨env.workflows.length, st.passed, st.failed, st.results⟩

/-!
Derived views of the extraction loop, used to state the deduplication
claims: the list of pre-dedup candidates in traversal order, and a
keep-first deduplication pass over it.
-/

/-- The candidate occurrence a single line contributes before deduplication:
`none` when the line is noise or matches no error pattern. -/
def lineCand (name : List Char) (p : Nat × List Char) : Option ErrorOcc :=
  if noiseHit p.2 then none
  else if errorHit p.2 then some ⟨removeTxt name, p.1, normalizeLine p.2⟩
  else none

/-- All candidates of one entry, in line order. -/
def entryCands (e : LogEntry) : List ErrorOcc :=
  (e.lines.enumFrom 1).filterMap (lineCand e.name)

/-- All candidates of the archive, in entry-then-line traversal order. -/
def allCands : List LogEntry → List ErrorOcc
  | [] => []
  | e :: rest => entryCands e ++ allCands rest

/-- Keep-first deduplication by case-insensitive key, starting from a set of
already-seen keys. -/
def dedupGo (seen : List (List Char)) : List ErrorOcc → List ErrorOcc
  | [] => []
  | o :: rest =>
    if occKey o ∈ seen then dedupGo seen rest
    else o :: dedupGo (occKey o :: seen) rest

/-- The seen-key set produced alongside `dedupGo`. -/
def dedupSeen (seen : List (List Char)) : List ErrorOcc → List (List Char)
  | [] => seen
  | o :: rest =>
    if occKey o ∈ seen then dedupSeen seen rest
    else dedupSeen (occKey o :: seen) rest

/-- The effect of one candidate on the `(seen, errors)` state. -/
def stepC (st : List (List Char) × List ErrorOcc) (o : ErrorOcc) :
    List (List Char) × List ErrorOcc :=
  if occKey o ∈ st.1 then st else (occKey o :: st.1, st.2 ++ [o])

/-!
Helper lemmas relating the extraction fold to the candidate/dedup view.
-/

/-- One line step of the extraction loop is: do nothing on a non-candidate,
apply `stepC` to the line's candidate otherwise. -/
theorem stepLine_cand (name : List Char) (st : List (List Char) × List ErrorOcc)
    (p : Nat × List Char) :
    stepLine name st p =
      match lineCand name p with
      | none => st
      | some o => stepC st o := by
  by_cases hn : noiseHit p.2
  · simp [stepLine, lineCand, hn]
  · by_cases he : errorHit p.2
    · simp [stepLine, lineCand, stepC, occKey, hn, he]
    · simp [stepLine, lineCand, hn, he]

/-- Folding `stepLine` over enumerated lines equals folding `stepC` over the
candidates those lines contribute. -/
theorem foldl_stepLine (name : List Char) :
    ∀ (ps : List (Nat × List Char)) (st : List (List Char) × List ErrorOcc),
      ps.foldl (stepLine name) st = (ps.filterMap (lineCand name)).foldl stepC st := by
  intro ps
  induction ps with
  | nil => intro st; rfl
  | cons p ps ih =>
    intro st
    rw [List.foldl_cons, ih, stepLine_cand]
    cases h : lineCand name p with
    | none => simp [List.filterMap_cons, h]
    | some o => simp [List.filterMap_cons, h, List.foldl_cons]

/-- Folding entry processing over the archive equals folding `stepC` over all
candidates in traversal order. -/
theorem foldl_processEntry :
    ∀ (entries : List LogEntry) (st : List (List Char) × List ErrorOcc),
      entries.foldl processEntry st = (allCands entries).foldl stepC st := by
  intro entries
  induction entries with
  | nil => intro st; rfl
  | cons e es ih =>
    intro st
    rw [List.foldl_cons, ih]
    have h1 : processEntry st e = (entryCands e).foldl stepC st :=
      foldl_stepLine e.name (e.lines.enumFrom 1) st
    rw [h1]
    simp only [allCands, List.foldl_append]

/-- Folding `stepC` from a `(seen, errs)` state appends exactly the keep-first
deduplication of the candidate list. -/
theorem foldl_stepC_dedup :
    ∀ (cands : List ErrorOcc) (seen : List (List Char)) (errs : List ErrorOcc),
      cands.foldl stepC (seen, errs) = (dedupSeen seen cands, errs ++ dedupGo seen cands) := by
  intro cands
  induction cands with
  | nil => intro seen errs; simp [dedupSeen, dedupGo]
  | cons o rest ih =>
    intro seen errs
    by_cases h : occKey o ∈ seen
    · rw [List.foldl_cons]
      have hs : stepC (seen, errs) o = (seen, errs) := by simp [stepC, h]
      rw [hs, ih]
      simp [dedupSeen, dedupGo, h]
    · rw [List.foldl_cons]
      have hs : stepC (seen, errs) o = (occKey o :: seen, errs ++ [o]) := by
        simp [stepC, h]
      rw [hs, ih]
      simp [dedupSeen, dedupGo, h]

/-- The extraction result is exactly the keep-first case-insensitive
deduplication of the candidate list. -/
theorem extract_eq_dedup (entries : List LogEntry) :
    extractEntries entries = dedupGo [] (allCands entries) := by
  unfold extractEntries
  rw [foldl_processEntry, foldl_stepC_dedup]
  rfl

/-- Every occurrence surviving deduplication has a key outside the initial
seen set. -/
theorem dedupGo_key_not_mem :
    ∀ (cands : List ErrorOcc) (seen : List (List Char)) (o : ErrorOcc),
      o ∈ dedupGo seen cands → occKey o ∉ seen := by
  intro cands
  induction cands with
  | nil => intro seen o h; simp [dedupGo] at h
  | cons c rest ih =>
    intro seen o h
    by_cases hc : occKey c ∈ seen
    · simp only [dedupGo, if_pos hc] at h
      exact ih seen o h
    · simp only [dedupGo, if_neg hc] at h
      rcases List.mem_cons.mp h with rfl | hmem
      · exact hc
      · intro hs
        exact ih _ o hmem (List.mem_cons_of_mem _ hs)

/-- Deduplication output has pairwise distinct case-insensitive keys. -/
theorem dedupGo_pairwise :
    ∀ (cands : List ErrorOcc) (seen : List (List Char)),
      (dedupGo seen cands).Pairwise (fun a b => occKey a ≠ occKey b) := by
  intro cands
  induction cands with
  | nil => intro seen; simp [dedupGo]
  | cons c rest ih =>
    intro seen
    by_cases hc : occKey c ∈ seen
    · simp only [dedupGo, if_pos hc]
      exact ih seen
    · simp only [dedupGo, if_neg hc]
      refine List.Pairwise.cons ?_ (ih _)
      intro o ho heq
      exact dedupGo_key_not_mem _ _ _ ho (heq ▸ List.mem_cons_self _ _)

/-- Deduplication only keeps elements of its input. -/
theorem mem_of_mem_dedupGo :
    ∀ (cands : List ErrorOcc) (seen : List (List Char)) (o : ErrorOcc),
      o ∈ dedupGo seen cands → o ∈ cands := by
  intro cands
  induction cands with
  | nil => intro seen o h; simp [dedupGo] at h
  | cons c rest ih =>
    intro seen o h
    by_cases hc : occKey c ∈ seen
    · simp only [dedupGo, if_pos hc] at h
      exact List.mem_cons_of_mem _ (ih seen o h)
    · simp only [dedupGo, if_neg hc] at h
      rcases List.mem_cons.mp h with rfl | hmem
      · exact List.mem_cons_self _ _
      · exact List.mem_cons_of_mem _ (ih _ o hmem)

/-- Every candidate of the archive comes from one of its entries. -/
theorem mem_allCands :
    ∀ (entries : List LogEntry) (o : ErrorOcc),
      o ∈ allCands entries → ∃ e ∈ entries, o ∈ entryCands e := by
  intro entries
  induction entries with
  | nil => intro o h; simp [allCands] at h
  | cons e es ih =>
    intro o h
    simp only [allCands] at h
    rcases List.mem_append.mp h with h1 | h2
    · exact ⟨e, List.mem_cons_self _ _, h1⟩
    · rcases ih o h2 with ⟨e2, he2, ho2⟩
      exact ⟨e2, List.mem_cons_of_mem _ he2, ho2⟩

/-- A line's candidate always carries the entry name with `.txt` occurrences
removed as its job step. -/
theorem lineCand_job_step (name : List Char) (p : Nat × List Char) (o : ErrorOcc)
    (h : lineCand name p = some o) : o.job_step = removeTxt name := by
  unfold lineCand at h
  split at h
  · exact Option.noConfusion h
  · split at h
    · injection h with h2
      rw [← h2]
    · exact Option.noConfusion h

/-- A candidate of an entry always carries the entry name with `.txt`
occurrences removed as its job step. -/
theorem entryCands_job_step (e : LogEntry) (o : ErrorOcc) (h : o ∈ entryCands e) :
    o.job_step = removeTxt e.name := by
  unfold entryCands at h
  rcases List.mem_filterMap.mp h with ⟨p, _, hp⟩
  exact lineCand_job_step e.name p o hp

/-- Dropping leading whitespace is idempotent. -/
theorem dropWhile_pySpace_idem (l : List Char) :
    (l.dropWhile pySpace).dropWhile pySpace = l.dropWhile pySpace := by
  induction l with
  | nil => rfl
  | cons a l ih =>
    by_cases h : pySpace a
    · simp [List.dropWhile_cons, h, ih]
    · simp [List.dropWhile_cons, h]

/-- Stripping after dropping leading whitespace equals stripping directly. -/
theorem trimChars_dropSpaces (l : List Char) :
    trimChars (dropSpaces l) = trimChars l := by
  unfold trimChars dropSpaces
  rw [dropWhile_pySpace_idem]

/-!
Claim theorems.
-/

/-- C1, counterexample: on a workflow whose latest run concluded failure and
whose log download returns bytes that are not a valid zip, the monitoring pass
does raise: `extract_all_errors` propagates the archive error out of `monitor`
(the claim says the condition is recovered and the pass continues). -/
theorem C1_counterexample :
    monitor { workflows := [⟨1, "wf"⟩], latest := fun _ => some ⟨10, "failure"⟩,
              logs := fun _ => some .corrupt, gen := fun _ => [] } = .error () := by
  rfl

/-- C1, amended: a corrupt log archive is NOT recovered; for every workflow
whose latest run concluded failure and whose download returned invalid archive
bytes, the per-workflow step of the monitoring pass raises (the `Except` error
propagates, aborting the pass instead of continuing to the next workflow). -/
theorem C1_amended_corrupt_raises (env : MonitorEnv) (st : MState) (wf : Workflow)
    (run : RunInfo) (hl : env.latest wf.id = some run)
    (hf : run.conclusion = "failure") (hlog : env.logs run.id = some .corrupt) :
    monitorStep env st wf = .error () := by
  simp [monitorStep, hl, hf, hlog, extract_all_errors]

/-- Witness for the amended C1 at a concrete environment. -/
theorem C1_amended_corrupt_raises_witness :
    monitorStep { workflows := [⟨1, "wf"⟩], latest := fun _ => some ⟨10, "failure"⟩,
                  logs := fun _ => some .corrupt, gen := fun _ => [] }
      ⟨0, 0, []⟩ ⟨1, "wf"⟩ = .error () :=
  C1_amended_corrupt_raises _ ⟨0, 0, []⟩ ⟨1, "wf"⟩ ⟨10, "failure"⟩ (by rfl) (by rfl) (by rfl)

/-- C2: extraction deduplicates case-insensitively on the normalized text:
the result is exactly the keep-first deduplication of the candidate lines in
file/line traversal order (so the first occurrence's sourceName and lineNumber
are kept), no two emitted occurrences share a case-insensitive key, and an
archive repeating one error line (modulo case) yields exactly one occurrence
with the first occurrence's line number. -/
theorem C2_dedup_first_wins :
    (∀ entries : List LogEntry, extractEntries entries = dedupGo [] (allCands entries))
  ∧ (∀ entries : List LogEntry,
      (extractEntries entries).Pairwise (fun a b => occKey a ≠ occKey b))
  ∧ extractEntries [⟨chars "a.txt", [chars "ERROR x", chars "ERROR x", chars "error X"]⟩] =
      [⟨chars "a", 1, chars "ERROR x"⟩] := by
  refine ⟨extract_eq_dedup, ?_, by rfl⟩
  intro entries
  rw [extract_eq_dedup]
  exact dedupGo_pairwise _ _

/-- C3: a line matching a noise pattern is discarded unconditionally — the
extraction step leaves the state unchanged — even when the line also matches
an error-signal pattern, as the concrete line
`Process completed with exit code ERROR` (which does match the error pattern)
shows by yielding zero occurrences. -/
theorem C3_noise_precedence (name : List Char) (st : List (List Char) × List ErrorOcc)
    (p : Nat × List Char) (h : noiseHit p.2 = true) :
    stepLine name st p = st ∧
    errorHit (chars "Process completed with exit code ERROR") = true ∧
    extractEntries [⟨chars "job.txt", [chars "Process completed with exit code ERROR"]⟩] = [] := by
  refine ⟨?_, by rfl, by rfl⟩
  simp [stepLine, h]

/-- Witness for C3 at a concrete noise line. -/
theorem C3_noise_precedence_witness :
    stepLine (chars "job.txt") ([], [])
        (1, chars "Process completed with exit code ERROR") = ([], []) ∧
    errorHit (chars "Process completed with exit code ERROR") = true ∧
    extractEntries [⟨chars "job.txt", [chars "Process completed with exit code ERROR"]⟩] = [] :=
  C3_noise_precedence (chars "job.txt") ([], [])
    (1, chars "Process completed with exit code ERROR") (by rfl)

/-- C4: when the error text contains `modulenotfounderror` case-insensitively,
`ai_fix` returns the canned dependency-fix suggestion for every possible
generator — the fallback generator's output never influences the result. -/
theorem C4_rule_precedence (gen : List Char → List Char) (err : List Char)
    (h : containsSub (lowerChars err) (chars "modulenotfounderror") = true) :
    ai_fix gen err = cannedModuleFix := by
  unfold ai_fix rule_based_fix
  simp [h]

/-- Witness for C4 at the concrete ModuleNotFoundError text. -/
theorem C4_rule_precedence_witness :
    ai_fix (fun _ => []) (chars "ModuleNotFoundError: No module named foo") = cannedModuleFix :=
  C4_rule_precedence (fun _ => [])
    (chars "ModuleNotFoundError: No module named foo") (by rfl)

/-- C5: `ai_fix` is total and always returns text carrying both the `Cause:`
and the `Fix:` label, for every error text and every generator output; and
whenever no rule matches and the stripped generator output lacks one of the
labels (so in particular on empty output), it returns exactly the documented
generic fallback suggestion. -/
theorem C5_advise_total :
    (∀ (gen : List Char → List Char) (err : List Char),
      containsSub (ai_fix gen err) (chars "Cause:") = true ∧
      containsSub (ai_fix gen err) (chars "Fix:") = true)
  ∧ (∀ (gen : List Char → List Char) (err : List Char),
      rule_based_fix err = none →
      (containsSub (trimChars (gen (buildPrompt err))) (chars "Cause:") = false ∨
       containsSub (trimChars (gen (buildPrompt err))) (chars "Fix:") = false) →
      ai_fix gen err = genericFallback) := by
  constructor
  · intro gen err
    by_cases hr : containsSub (lowerChars err) (chars "modulenotfounderror") = true
    · have h1 : ai_fix gen err = cannedModuleFix := by
        unfold ai_fix rule_based_fix
        simp [hr]
      rw [h1]
      exact ⟨by rfl, by rfl⟩
    · have hnone : rule_based_fix err = none := by
        unfold rule_based_fix
        simp [hr]
      unfold ai_fix
      rw [hnone]
      by_cases hc : (containsSub (trimChars (gen (buildPrompt err))) (chars "Cause:") &&
                     containsSub (trimChars (gen (buildPrompt err))) (chars "Fix:")) = true
      · simp only [hc, if_true]
        exact ⟨(Bool.and_eq_true _ _).mp hc |>.1, (Bool.and_eq_true _ _).mp hc |>.2⟩
      · simp only [Bool.not_eq_true] at hc
        simp only [hc, Bool.false_eq_true, if_false]
        exact ⟨by rfl, by rfl⟩
  · intro gen err hnone hmiss
    unfold ai_fix
    rw [hnone]
    have hc : (containsSub (trimChars (gen (buildPrompt err))) (chars "Cause:") &&
               containsSub (trimChars (gen (buildPrompt err))) (chars "Fix:")) = false := by
      rcases hmiss with h | h <;> simp [h]
    simp only [hc, Bool.false_eq_true, if_false]

/-- Witness for C5 at a concrete no-rule error text and an empty-output
generator. -/
theorem C5_advise_total_witness :
    ai_fix (fun _ => []) (chars "exit status 1") = genericFallback :=
  C5_advise_total.2 (fun _ => []) (chars "exit status 1") (by rfl) (Or.inl (by rfl))

/-- C6: on the synthetic conclusions success, success, failure, failure,
cancelled with always-succeeding downloads of valid archives, the pass yields
passed 2, failed 2, total 5 and two results; and in general a success run
increments only the passed counter, a failure run increments only the failed
counter, any other conclusion or an absent run increments neither, and the
reported total equals the number of workflows received. -/
theorem C6_counter_conservation :
    (monitor { workflows := [⟨1, "a"⟩, ⟨2, "b"⟩, ⟨3, "c"⟩, ⟨4, "d"⟩, ⟨5, "e"⟩],
               latest := fun i => some ⟨100 + i,
                 if i = 1 ∨ i = 2 then "success"
                 else if i = 3 ∨ i = 4 then "failure" else "cancelled"⟩,
               logs := fun _ => some (.zip []),
               gen := fun _ => [] } =
        .ok ⟨5, 2, 2, [⟨"c", 103, []⟩, ⟨"d", 104, []⟩]⟩)
  ∧ (∀ (env : MonitorEnv) (st : MState) (wf : Workflow) (run : RunInfo),
      env.latest wf.id = some run → run.conclusion = "success" →
      monitorStep env st wf = .ok ⟨st.passed + 1, st.failed, st.results⟩)
  ∧ (∀ (env : MonitorEnv) (st : MState) (wf : Workflow) (run : RunInfo) (s : MState),
      env.latest wf.id = some run → run.conclusion = "failure" →
      monitorStep env st wf = .ok s →
      s.passed = st.passed ∧ s.failed = st.failed + 1)
  ∧ (∀ (env : MonitorEnv) (st : MState) (wf : Workflow) (run : RunInfo),
      env.latest wf.id = some run → run.conclusion ≠ "success" →
      run.conclusion ≠ "failure" → monitorStep env st wf = .ok st)
  ∧ (∀ (env : MonitorEnv) (st : MState) (wf : Workflow),
      env.latest wf.id = none → monitorStep env st wf = .ok st)
  ∧ (∀ (env : MonitorEnv) (s : MonitorSummary),
      monitor env = .ok s → s.total_workflows = env.workflows.length) := by
  refine ⟨by rfl, ?_, ?_, ?_, ?_, ?_⟩
  · intro env st wf run hl hs
    simp [monitorStep, hl, hs]
  · intro env st wf run s hl hf hstep
    simp only [monitorStep, hl, hf] at hstep
    simp only [String.reduceEq, reduceIte] at hstep
    cases hlog : env.logs run.id with
    | none =>
      rw [hlog] at hstep
      simp only at hstep
      injection hstep with h2
      rw [← h2]
      exact ⟨rfl, rfl⟩
    | some lb =>
      rw [hlog] at hstep
      cases lb with
      | corrupt => simp [extract_all_errors] at hstep
      | zip entries =>
        simp only [extract_all_errors] at hstep
        injection hstep with h2
        rw [← h2]
        exact ⟨rfl, rfl⟩
  · intro env st wf run hl hns hnf
    simp [monitorStep, hl, hns, hnf]
  · intro env st wf hl
    simp [monitorStep, hl]
  · intro env s h
    unfold monitor at h
    cases hfold : env.workflows.foldlM (monitorStep env) ⟨0, 0, []⟩ with
    | error e => rw [hfold] at h; exact Except.noConfusion h
    | ok st =>
      rw [hfold] at h
      injection h with h2
      rw [← h2]

/-- Witness for C6 applying the success case at a concrete environment. -/
theorem C6_counter_conservation_witness :
    monitorStep { workflows := [], latest := fun _ => some ⟨7, "success"⟩,
                  logs := fun _ => none, gen := fun _ => [] }
      ⟨0, 0, []⟩ ⟨1, "w"⟩ = .ok ⟨1, 0, []⟩ :=
  C6_counter_conservation.2.1 _ ⟨0, 0, []⟩ ⟨1, "w"⟩ ⟨7, "success"⟩ (by rfl) (by rfl)

/-- C7, counterexample: an archive entry named `a.txt.b.txt` produces the job
step `a.b` — every occurrence of `.txt` is removed, not only a trailing
extension — whereas the claim demands `a.txt.b`. -/
theorem C7_counterexample :
    extract_all_errors (.zip [⟨chars "a.txt.b.txt", [chars "ERROR boom"]⟩]) =
      .ok [⟨chars "a.b", 1, chars "ERROR boom"⟩] ∧
    chars "a.b" ≠ chars "a.txt.b" := by
  exact ⟨by rfl, by decide⟩

/-- C7, amended: each emitted occurrence's job step equals its archive entry's
name with EVERY occurrence of `.txt` removed (Python `str.replace(".txt", "")`
semantics), not only the trailing extension. -/
theorem C7_amended_jobstep (entries : List LogEntry) (o : ErrorOcc)
    (h : o ∈ extractEntries entries) :
    ∃ e ∈ entries, o.job_step = removeTxt e.name := by
  rw [extract_eq_dedup] at h
  rcases mem_allCands entries o (mem_of_mem_dedupGo _ _ _ h) with ⟨e, he, ho⟩
  exact ⟨e, he, entryCands_job_step e o ho⟩

/-- Witness for the amended C7 at a concrete archive. -/
theorem C7_amended_jobstep_witness :
    ∃ e ∈ [(⟨chars "a.txt.b.txt", [chars "ERROR boom"]⟩ : LogEntry)],
      (⟨chars "a.b", 1, chars "ERROR boom"⟩ : ErrorOcc).job_step = removeTxt e.name :=
  C7_amended_jobstep [⟨chars "a.txt.b.txt", [chars "ERROR boom"]⟩]
    ⟨chars "a.b", 1, chars "ERROR boom"⟩ (by decide)

/-- C8: a failure-concluded run with no downloadable log bytes increments only
the failed counter and appends no run result; the step returns before
extraction or the advisor could run. -/
theorem C8_failed_nologs (env : MonitorEnv) (st : MState) (wf : Workflow)
    (run : RunInfo) (hl : env.latest wf.id = some run)
    (hf : run.conclusion = "failure") (hlog : env.logs run.id = none) :
    monitorStep env st wf = .ok ⟨st.passed, st.failed + 1, st.results⟩ := by
  simp [monitorStep, hl, hf, hlog]

/-- Witness for C8 at a concrete environment. -/
theorem C8_failed_nologs_witness :
    monitorStep { workflows := [⟨1, "wf"⟩], latest := fun _ => some ⟨10, "failure"⟩,
                  logs := fun _ => none, gen := fun _ => [] }
      ⟨3, 4, []⟩ ⟨1, "wf"⟩ = .ok ⟨3, 5, []⟩ :=
  C8_failed_nologs _ ⟨3, 4, []⟩ ⟨1, "wf"⟩ ⟨10, "failure"⟩ (by rfl) (by rfl) (by rfl)

/-- C9: normalization strips the leading timestamp-plus-marker prefix when the
regex matches — in particular for the documented example and for every message
following the concrete prefix — and a line on which the regex fails is only
whitespace-trimmed. -/
theorem C9_normalization :
    normalizeLine (chars "2024-05-01T12:00:00.000Z ##[error] Something broke") =
      chars "Something broke"
  ∧ (∀ msg : List Char,
      normalizeLine (chars "2024-05-01T12:00:00.000Z ##[error] " ++ msg) = trimChars msg)
  ∧ (∀ line : List Char, matchTs line = none → normalizeLine line = trimChars line) := by
  refine ⟨by rfl, ?_, ?_⟩
  · intro msg
    have h : normalizeLine (chars "2024-05-01T12:00:00.000Z ##[error] " ++ msg) =
        trimChars (dropSpaces msg) := rfl
    rw [h, trimChars_dropSpaces]
  · intro line h
    unfold normalizeLine
    rw [h]

/-- Witness for C9 applying the no-match case at a concrete line. -/
theorem C9_normalization_witness :
    normalizeLine (chars "plain ERROR line") = trimChars (chars "plain ERROR line") :=
  C9_normalization.2.2 (chars "plain ERROR line") (by rfl)

/-- C10: a failure-concluded run whose download and parsing succeed but whose
extraction yields no occurrences still appends a run result with an empty
error list (so the results list can be longer than the number of runs with at
least one annotated error). -/
theorem C10_empty_error_list (env : MonitorEnv) (st : MState) (wf : Workflow)
    (run : RunInfo) (entries : List LogEntry)
    (hl : env.latest wf.id = some run) (hf : run.conclusion = "failure")
    (hlog : env.logs run.id = some (.zip entries))
    (hext : extractEntries entries = []) :
    monitorStep env st wf =
      .ok ⟨st.passed, st.failed + 1, st.results ++ [⟨wf.name, run.id, []⟩]⟩ := by
  simp [monitorStep, hl, hf, hlog, extract_all_errors, hext, annotate]

/-- Witness for C10 at a concrete environment with an empty valid archive. -/
theorem C10_empty_error_list_witness :
    monitorStep { workflows := [⟨1, "wf"⟩], latest := fun _ => some ⟨10, "failure"⟩,
                  logs := fun _ => some (.zip []), gen := fun _ => [] }
      ⟨0, 0, []⟩ ⟨1, "wf"⟩ = .ok ⟨0, 1, [⟨"wf", 10, []⟩]⟩ :=
  C10_empty_error_list _ ⟨0, 0, []⟩ ⟨1, "wf"⟩ ⟨10, "failure"⟩ []
    (by rfl) (by rfl) (by rfl) (by rfl)
